import Mathlib

/-!
Verification of the INA228 MicroPython driver (`src/ina228.py`).

The driver is embedded shallowly:

* Python arbitrary-precision non-negative integers are `Nat`, signed ones `Int`.
* Python floats are modelled as exact rationals `ℚ`; every float literal in the
  source is exactly representable, and the arithmetic in the claims has exact
  results, so no rounding behaviour is lost for the properties proved here.
* The I2C transport collaborator is a pure function
  `Bus : address → register → size → bytes`; each method additionally returns
  the trace of transport transactions (`I2CEvent`) it issued, so frame
  properties (which reads/writes happen) are visible in the model.
* `int.to_bytes(2, 'big')` follows the MicroPython runtime semantics the spec
  documents: out-of-range values are silently truncated to their low 16 bits.
-/

namespace INA228Model

/-- Register address `_CONFIG = const(0x00)` from the source. -/
def _CONFIG : Nat := 0x00

/-- Register address `_ADCCFG = const(0x01)`. -/
def _ADCCFG : Nat := 0x01

/-- Register address `_SHUNTCAL = const(0x02)`. -/
def _SHUNTCAL : Nat := 0x02

/-- Register address `_SHUNT_TEMPCO = const(0x03)`. -/
def _SHUNT_TEMPCO : Nat := 0x03

/-- Register address `_VSHUNT = const(0x04)`. -/
def _VSHUNT : Nat := 0x04

/-- Register address `_VBUS = const(0x05)`. -/
def _VBUS : Nat := 0x05

/-- Register address `_DIETEMP = const(0x06)`. -/
def _DIETEMP : Nat := 0x06

/-- Register address `_CURRENT = const(0x07)`. -/
def _CURRENT : Nat := 0x07

/-- Register address `_POWER = const(0x08)`. -/
def _POWER : Nat := 0x08

/-- Register address `_ENERGY = const(0x09)`. -/
def _ENERGY : Nat := 0x09

/-- Register address `_CHARGE = const(0x0A)`. -/
def _CHARGE : Nat := 0x0A

/-- Register address `_DIAGALRT = const(0x0B)`. -/
def _DIAGALRT : Nat := 0x0B

/-- Register address `_MFG_UID = const(0x3E)`. -/
def _MFG_UID : Nat := 0x3E

/-- Register address `_DVC_UID = const(0x3F)`. -/
def _DVC_UID : Nat := 0x3F

/-- Constant `_INA2XX_DEFAULT_ADDR = const(0x40)`. -/
def _INA2XX_DEFAULT_ADDR : Nat := 0x40

/-- Constant `_TEXAS_INSTRUMENTS_ID = const(0x5449)`. -/
def _TEXAS_INSTRUMENTS_ID : Nat := 0x5449

/-- Constant `_INA228_DEVICE_ID = const(0x228)`. -/
def _INA228_DEVICE_ID : Nat := 0x228

/-- `_twos_comp(val, bits)` from the source: if `val & (1 << (bits - 1)) != 0`
then `val - (1 << bits)` else `val`.  The driver only applies it to unsigned
register contents, so the input is a `Nat`; the result is a signed `Int`. -/
def _twos_comp (val : Nat) (bits : Nat) : Int :=
  if val &&& (1 <<< (bits - 1)) ≠ 0 then (val : Int) - ((1 <<< bits : Nat) : Int)
  else (val : Int)

/-- One I2C transport transaction, as issued through
`i2c.readfrom_mem` / `i2c.writeto_mem`. -/
inductive I2CEvent where
  | read (address : Nat) (register : Nat) (size : Nat) (data : List Nat)
  | write (address : Nat) (register : Nat) (data : List Nat)
  deriving DecidableEq

/-- The transport collaborator: what `i2c.readfrom_mem(address, register, size)`
returns.  A pure function, since this layer issues reads and interprets the
returned bytes without any further protocol logic. -/
def Bus : Type := Nat → Nat → Nat → List Nat

/-- `int.from_bytes(bs, 'big')` on a byte string: big-endian accumulation. -/
def int_from_bytes_big (bs : List Nat) : Nat :=
  bs.foldl (fun acc b => acc * 256 + b) 0

/-- `v.to_bytes(2, 'big')` under the MicroPython runtime semantics the spec
documents (§9): the value is silently truncated to its low 16 bits
(two's-complement low bytes for negative values), then split big-endian. -/
def int_to_bytes2_big (v : Int) : List Nat :=
  [(v % 65536).toNat / 256, (v % 65536).toNat % 256]

/-- Python `int(q)` on an exact rational: truncation toward zero
(`Int.tdiv` is T-division and `q.den` is positive). -/
def py_int (q : ℚ) : Int := Int.tdiv q.num (q.den : Int)

/-- Driver state: device address and the calibration fields.  The transport
handle is passed separately as a `Bus` argument to each method. -/
structure INA228 where
  _address : Nat
  _current_lsb : ℚ
  _adc_range : Nat
  deriving DecidableEq

/-- `__init__`: stores the address and the defaults
`_current_lsb = 10 / (2**19)`, `_adc_range = 0`. -/
def INA228.init (address : Nat) : INA228 :=
  { _address := address, _current_lsb := (10 : ℚ) / 2 ^ 19, _adc_range := 0 }

/-- `_read_register(register, size)`: one `readfrom_mem` of `size` bytes at
`register`, decoded with `int.from_bytes(tmp, 'big')`.  Returns the value, the
(unchanged) driver state and the transaction trace. -/
def INA228._read_register (self : INA228) (i2c : Bus) (register : Nat)
    (size : Nat) : Nat × INA228 × List I2CEvent :=
  let tmp := i2c self._address register size
  (int_from_bytes_big tmp, self, [I2CEvent.read self._address register size tmp])

/-- `_write_register16(register, register_value)`: splits the value into two
big-endian bytes with `to_bytes(2, 'big')` and issues one `writeto_mem`. -/
def INA228._write_register16 (self : INA228) (register : Nat)
    (register_value : Int) : INA228 × List I2CEvent :=
  let register_bytes := int_to_bytes2_big register_value
  (self, [I2CEvent.write self._address register register_bytes])

/-- `reset_all()`: read CONFIG, set bit 15 (RST), write back. -/
def INA228.reset_all (self : INA228) (i2c : Bus) : INA228 × List I2CEvent :=
  let r := self._read_register i2c _CONFIG 2
  let config := r.1 ||| (1 <<< 15)
  let w := r.2.1._write_register16 _CONFIG (config : Int)
  (w.1, r.2.2 ++ w.2)

/-- `reset_energy()`: read CONFIG, set bit 14 (RSTACC), write back. -/
def INA228.reset_energy (self : INA228) (i2c : Bus) : INA228 × List I2CEvent :=
  let r := self._read_register i2c _CONFIG 2
  let config := r.1 ||| (1 <<< 14)
  let w := r.2.1._write_register16 _CONFIG (config : Int)
  (w.1, r.2.2 ++ w.2)

/-- `calibrate_shunt(max_current, shunt_ohms)`: sets
`_current_lsb = max_current / (2**19)`, computes
`shunt_cal = 13107.2e6 * _current_lsb * shunt_ohms`, multiplies by 4 when
`_adc_range == 1`, and writes `int(shunt_cal)` to SHUNT_CAL. -/
def INA228.calibrate_shunt (self : INA228) (max_current : ℚ)
    (shunt_ohms : ℚ) : INA228 × List I2CEvent :=
  let self := { self with _current_lsb := max_current / 2 ^ 19 }
  let shunt_cal : ℚ := 13107.2e6 * self._current_lsb * shunt_ohms
  let shunt_cal := if self._adc_range == 1 then shunt_cal * 4 else shunt_cal
  self._write_register16 _SHUNTCAL (py_int shunt_cal)

/-- `set_adc_range(range)`: read CONFIG; if `range != 0` set bit 4 and record
`_adc_range = 1`, else clear bit 4 (`config &= ~(1 << 4)`, which on a
non-negative Python int is `Nat.ldiff`) and record `_adc_range = 0`;
write CONFIG back. -/
def INA228.set_adc_range (self : INA228) (i2c : Bus) (range : Int) :
    INA228 × List I2CEvent :=
  let r := self._read_register i2c _CONFIG 2
  if range ≠ 0 then
    let config := r.1 ||| (1 <<< 4)
    let self := { r.2.1 with _adc_range := 1 }
    let w := self._write_register16 _CONFIG (config : Int)
    (w.1, r.2.2 ++ w.2)
  else
    let config := Nat.ldiff r.1 (1 <<< 4)
    let self := { r.2.1 with _adc_range := 0 }
    let w := self._write_register16 _CONFIG (config : Int)
    (w.1, r.2.2 ++ w.2)

/-- `get_current()`: read 3 bytes at CURRENT, `_twos_comp(raw >> 4, 20)`,
multiply by `_current_lsb`. -/
def INA228.get_current (self : INA228) (i2c : Bus) :
    ℚ × INA228 × List I2CEvent :=
  let r := self._read_register i2c _CURRENT 3
  let current : ℚ := ((_twos_comp (r.1 >>> 4) 20 : Int) : ℚ) * r.2.1._current_lsb
  (current, r.2.1, r.2.2)

/-- `get_voltage()`: read 3 bytes at VBUS, `_twos_comp(raw >> 4, 20)`,
multiply by the fixed LSB `195.3125e-6`. -/
def INA228.get_voltage (self : INA228) (i2c : Bus) :
    ℚ × INA228 × List I2CEvent :=
  let r := self._read_register i2c _VBUS 3
  let voltage : ℚ := ((_twos_comp (r.1 >>> 4) 20 : Int) : ℚ) * 195.3125e-6
  (voltage, r.2.1, r.2.2)

/-- `get_vshunt()`: read 3 bytes at VSHUNT, return the raw signed count
`_twos_comp(raw >> 4, 20)`. -/
def INA228.get_vshunt (self : INA228) (i2c : Bus) :
    Int × INA228 × List I2CEvent :=
  let r := self._read_register i2c _VSHUNT 3
  (_twos_comp (r.1 >>> 4) 20, r.2.1, r.2.2)

/-- `get_die_temp()`: read 2 bytes at DIETEMP, `_twos_comp(raw, 16)`,
multiply by `7.8125e-3`. -/
def INA228.get_die_temp (self : INA228) (i2c : Bus) :
    ℚ × INA228 × List I2CEvent :=
  let r := self._read_register i2c _DIETEMP 2
  let temp : ℚ := ((_twos_comp r.1 16 : Int) : ℚ) * 7.8125e-3
  (temp, r.2.1, r.2.2)

/-- `get_diagnostic_flags()`: raw 2-byte `readfrom_mem` at DIAG_ALRT. -/
def INA228.get_diagnostic_flags (self : INA228) (i2c : Bus) :
    List Nat × INA228 × List I2CEvent :=
  let tmp := i2c self._address _DIAGALRT 2
  (tmp, self, [I2CEvent.read self._address _DIAGALRT 2 tmp])

/-- `get_manufacturer_id()`: raw 2-byte `readfrom_mem` at MFG_UID. -/
def INA228.get_manufacturer_id (self : INA228) (i2c : Bus) :
    List Nat × INA228 × List I2CEvent :=
  let tmp := i2c self._address _MFG_UID 2
  (tmp, self, [I2CEvent.read self._address _MFG_UID 2 tmp])

/-- `get_device_id()`: raw 2-byte `readfrom_mem` at DVC_UID. -/
def INA228.get_device_id (self : INA228) (i2c : Bus) :
    List Nat × INA228 × List I2CEvent :=
  let tmp := i2c self._address _DVC_UID 2
  (tmp, self, [I2CEvent.read self._address _DVC_UID 2 tmp])

/-- `True` iff a transaction trace contains no transport write. -/
def has_no_write (tr : List I2CEvent) : Bool :=
  tr.all fun e =>
    match e with
    | I2CEvent.write _ _ _ => false
    | I2CEvent.read _ _ _ _ => true

/-- The `bits`-wide two's-complement bit pattern of a signed integer, as the
round-trip claim words it: `x mod 2^bits` (mathematical modulus, non-negative
representative). -/
def twos_encode (x : Int) (bits : Nat) : Nat := (x % (2 : Int) ^ bits).toNat

/-- For a value below `2^(k+1)`, bit `k` is set exactly when `2^k ≤ val`. -/
lemma testBit_top (k val : Nat) (h : val < 2 ^ (k + 1)) :
    val.testBit k = decide (2 ^ k ≤ val) := by
  rw [Nat.testBit_to_div_mod]
  rcases Nat.lt_or_ge val (2 ^ k) with h2 | h2
  · have hd : val / 2 ^ k = 0 := Nat.div_eq_of_lt h2
    simp [hd, Nat.not_le.2 h2]
  · have hpos : 0 < 2 ^ k := Nat.pos_pow_of_pos k (by norm_num)
    have hub : val / 2 ^ k < 2 := by
      rw [Nat.div_lt_iff_lt_mul hpos]
      calc val < 2 ^ (k + 1) := h
        _ = 2 * 2 ^ k := by rw [Nat.pow_succ]; ring
    have hlb : 1 ≤ val / 2 ^ k := by
      rw [Nat.le_div_iff_mul_le hpos]
      omega
    have hd : val / 2 ^ k = 1 := by omega
    simp [hd, h2]

/-- Evaluation of `_twos_comp` under the width bound: it is the identity below
`2^k` and subtracts `2^(k+1)` above. -/
lemma twos_comp_eval (k val : Nat) (h : val < 2 ^ (k + 1)) :
    _twos_comp val (k + 1) =
      if val < 2 ^ k then (val : Int) else (val : Int) - 2 ^ (k + 1) := by
  have hs : (1 <<< k) = 2 ^ k := by simp [Nat.shiftLeft_eq]
  have hs2 : ((1 <<< (k + 1) : Nat) : Int) = 2 ^ (k + 1) := by
    simp [Nat.shiftLeft_eq]
  rcases Nat.lt_or_ge val (2 ^ k) with h2 | h2
  · have hbit : val &&& (1 <<< k) = 0 := by
      rw [hs, Nat.and_two_pow, testBit_top k val h]
      simp [Nat.not_le.2 h2]
    unfold _twos_comp
    simp only [Nat.add_sub_cancel]
    rw [if_neg (by simp [hbit]), if_pos h2]
  · have hbit : val &&& (1 <<< k) ≠ 0 := by
      rw [hs, Nat.and_two_pow, testBit_top k val h]
      simp [h2]
    unfold _twos_comp
    simp only [Nat.add_sub_cancel]
    rw [if_pos hbit, if_neg (Nat.not_lt.2 h2), hs2]

/-- Round-trip of the `(k+1)`-bit two's-complement encode with `_twos_comp`,
for all representable values. -/
lemma twos_roundtrip (k : Nat) (x : Int) (h1 : -(2 ^ k) ≤ x)
    (h2 : x ≤ 2 ^ k - 1) :
    _twos_comp (twos_encode x (k + 1)) (k + 1) = x := by
  have hpk : (0 : Int) < 2 ^ k := by positivity
  have hMk : ((2 : Int) ^ (k + 1)) = 2 ^ k * 2 := by ring
  have hM : (0 : Int) < 2 ^ (k + 1) := by positivity
  have hmod1 : (0 : Int) ≤ x % 2 ^ (k + 1) := Int.emod_nonneg x (by omega)
  have hmod2 : x % 2 ^ (k + 1) < 2 ^ (k + 1) := Int.emod_lt_of_pos x hM
  have key : x % 2 ^ (k + 1) = if 0 ≤ x then x else x + 2 ^ (k + 1) := by
    split
    · exact Int.emod_eq_of_lt (by assumption) (by omega)
    · have h4 : x % 2 ^ (k + 1) = (x + 2 ^ (k + 1)) % 2 ^ (k + 1) := by
        rw [show x + 2 ^ (k + 1) = x + 2 ^ (k + 1) * 1 by ring,
          Int.add_mul_emod_self_left]
      rw [h4]
      exact Int.emod_eq_of_lt (by omega) (by omega)
  have hcast1 : (((2 : Nat) ^ (k + 1) : Nat) : Int) = 2 ^ (k + 1) := by push_cast; ring
  have hcast2 : (((2 : Nat) ^ k : Nat) : Int) = 2 ^ k := by push_cast; ring
  have hval : twos_encode x (k + 1) < 2 ^ (k + 1) := by
    unfold twos_encode
    omega
  rw [twos_comp_eval k _ hval]
  unfold twos_encode at *
  have htn : (((x % (2 : Int) ^ (k + 1)).toNat : Nat) : Int) = x % 2 ^ (k + 1) :=
    Int.toNat_of_nonneg hmod1
  split
  · omega
  · omega

/-- C1: for every `max_current` and `shunt_ohms`, `calibrate_shunt` sets the
stored `_current_lsb` to `max_current / 2^19` and issues exactly one write, to
SHUNT_CAL (offset 0x02), of `int(13107.2e6 * (max_current / 2^19) *
shunt_ohms)` truncated toward zero, the product being multiplied by 4
beforehand exactly when the stored `_adc_range` equals 1. -/
theorem c1_calibrate_shunt (dev : INA228) (max_current shunt_ohms : ℚ) :
    (dev.calibrate_shunt max_current shunt_ohms).1 =
      { dev with _current_lsb := max_current / 2 ^ 19 } ∧
    (dev.calibrate_shunt max_current shunt_ohms).2 =
      [I2CEvent.write dev._address 0x02 (int_to_bytes2_big (py_int
        (if dev._adc_range = 1
         then 13107.2e6 * (max_current / 2 ^ 19) * shunt_ohms * 4
         else 13107.2e6 * (max_current / 2 ^ 19) * shunt_ohms)))] := by
  unfold INA228.calibrate_shunt INA228._write_register16
  by_cases h : dev._adc_range = 1 <;> simp [h, _SHUNTCAL]

/-- C2: for `bits ∈ {16, 20}` and every unsigned `val < 2^bits`, `_twos_comp`
returns `val` when `val < 2^(bits-1)`, and `val - 2^bits` when the sign bit
(bit `bits-1`) is set. -/
theorem c2_twos_comp_decode (bits val : Nat) (hbits : bits = 16 ∨ bits = 20)
    (hval : val < 2 ^ bits) :
    _twos_comp val bits =
      if val < 2 ^ (bits - 1) then (val : Int) else (val : Int) - 2 ^ bits := by
  rcases hbits with h | h <;> subst h
  · exact twos_comp_eval 15 val hval
  · exact twos_comp_eval 19 val hval

/-- Witness for C2 at `bits = 16`, `val = 40000` (sign bit set). -/
theorem c2_twos_comp_decode_witness :
    ((16 = 16 ∨ 16 = 20) ∧ 40000 < 2 ^ 16) ∧
      _twos_comp 40000 16 =
        if 40000 < 2 ^ 15 then ((40000 : Nat) : Int)
        else ((40000 : Nat) : Int) - 2 ^ 16 :=
  ⟨⟨Or.inl rfl, by norm_num⟩,
    c2_twos_comp_decode 16 40000 (Or.inl rfl) (by norm_num)⟩

/-- C3: encoding a representable signed value as its 20-bit (resp. 16-bit)
two's-complement bit pattern and decoding with `_twos_comp` returns it
exactly. -/
theorem c3_twos_comp_roundtrip (x y : Int)
    (hx1 : -2 ^ 19 ≤ x) (hx2 : x ≤ 2 ^ 19 - 1)
    (hy1 : -2 ^ 15 ≤ y) (hy2 : y ≤ 2 ^ 15 - 1) :
    _twos_comp (twos_encode x 20) 20 = x ∧
      _twos_comp (twos_encode y 16) 16 = y :=
  ⟨twos_roundtrip 19 x hx1 hx2, twos_roundtrip 15 y hy1 hy2⟩

/-- Witness for C3 at `x = -300000`, `y = -3`. -/
theorem c3_twos_comp_roundtrip_witness :
    (-2 ^ 19 ≤ (-300000 : Int) ∧ (-300000 : Int) ≤ 2 ^ 19 - 1 ∧
      -2 ^ 15 ≤ (-3 : Int) ∧ (-3 : Int) ≤ 2 ^ 15 - 1) ∧
    _twos_comp (twos_encode (-300000) 20) 20 = -300000 ∧
      _twos_comp (twos_encode (-3) 16) 16 = -3 :=
  ⟨⟨by norm_num, by norm_num, by norm_num, by norm_num⟩,
    c3_twos_comp_roundtrip (-300000) (-3)
      (by norm_num) (by norm_num) (by norm_num) (by norm_num)⟩

/-- C4: `get_current` issues the single 3-byte read at CURRENT (0x07), decodes
the bytes big-endian, right-shifts by 4, decodes as 20-bit two's complement
and multiplies by the stored `_current_lsb`; the state is unchanged. -/
theorem c4_get_current (dev : INA228) (bus : Bus) :
    dev.get_current bus =
      (((_twos_comp (int_from_bytes_big (bus dev._address 0x07 3) >>> 4) 20
            : Int) : ℚ) * dev._current_lsb,
        dev,
        [I2CEvent.read dev._address 0x07 3 (bus dev._address 0x07 3)]) := rfl

/-- A freshly constructed driver at the default address (`_adc_range = 0`). -/
def dev_range0 : INA228 := INA228.init 0x40

/-- The same state with `_adc_range = 1`. -/
def dev_range1 : INA228 := { INA228.init 0x40 with _adc_range := 1 }

/-- C5: `calibrate_shunt(10.24, 0.002)` sets `_current_lsb = 10.24 / 2^19` and
writes exactly 512 (bytes `[2, 0]`) to SHUNT_CAL when `_adc_range = 0`, and
exactly 2048 = 4 * 512 (bytes `[8, 0]`) when `_adc_range = 1`. -/
theorem c5_calibrate_concrete :
    (dev_range0.calibrate_shunt 10.24 0.002).1._current_lsb = 10.24 / 2 ^ 19 ∧
    (dev_range0.calibrate_shunt 10.24 0.002).2 =
      [I2CEvent.write 0x40 0x02 [2, 0]] ∧
    (dev_range1.calibrate_shunt 10.24 0.002).2 =
      [I2CEvent.write 0x40 0x02 [8, 0]] ∧
    int_from_bytes_big [2, 0] = 512 ∧ int_from_bytes_big [8, 0] = 2048 := by
  have h0 : ((13107.2e6 : ℚ) * (10.24 / 2 ^ 19) * 0.002) = 512 := by norm_num
  have h0b : ((13107.2e6 : ℚ) * (10.24 / 2 ^ 19) * 0.002 * 4) = 2048 := by
    norm_num
  have h1 : py_int 512 = 512 := by unfold py_int; norm_num
  have h1b : py_int 2048 = 2048 := by unfold py_int; norm_num
  have t0 : (dev_range0.calibrate_shunt 10.24 0.002).2 =
      [I2CEvent.write 0x40 0x02 (int_to_bytes2_big (py_int
        ((13107.2e6 : ℚ) * (10.24 / 2 ^ 19) * 0.002)))] := rfl
  have t1 : (dev_range1.calibrate_shunt 10.24 0.002).2 =
      [I2CEvent.write 0x40 0x02 (int_to_bytes2_big (py_int
        ((13107.2e6 : ℚ) * (10.24 / 2 ^ 19) * 0.002 * 4)))] := rfl
  rw [h0, h1] at t0
  rw [h0b, h1b] at t1
  refine ⟨rfl, ?_, ?_, by decide, by decide⟩
  · rw [t0]; decide
  · rw [t1]; decide

/-- A concrete transport whose every read returns `0xAB` bytes. -/
def busAB : Bus := fun _ _ size => List.replicate size 0xAB

/-- Setting bit 4 leaves every other bit unchanged. -/
lemma or16_testBit_ne (cfg i : Nat) (h : i ≠ 4) :
    (cfg ||| (1 <<< 4)).testBit i = cfg.testBit i := by
  rw [show (1 <<< 4 : Nat) = 2 ^ 4 by decide, Nat.testBit_lor,
    Nat.testBit_two_pow_of_ne (Ne.symm h)]
  simp

/-- Setting bit 4 sets bit 4. -/
lemma or16_testBit_4 (cfg : Nat) : (cfg ||| (1 <<< 4)).testBit 4 = true := by
  rw [show (1 <<< 4 : Nat) = 2 ^ 4 by decide, Nat.testBit_lor,
    Nat.testBit_two_pow_self]
  simp

/-- Clearing bit 4 (`config &= ~(1 << 4)`) leaves every other bit unchanged. -/
lemma ldiff16_testBit_ne (cfg i : Nat) (h : i ≠ 4) :
    (Nat.ldiff cfg (1 <<< 4)).testBit i = cfg.testBit i := by
  rw [show (1 <<< 4 : Nat) = 2 ^ 4 by decide, Nat.testBit_ldiff,
    Nat.testBit_two_pow_of_ne (Ne.symm h)]
  simp

/-- Clearing bit 4 clears bit 4. -/
lemma ldiff16_testBit_4 (cfg : Nat) :
    (Nat.ldiff cfg (1 <<< 4)).testBit 4 = false := by
  rw [show (1 <<< 4 : Nat) = 2 ^ 4 by decide, Nat.testBit_ldiff,
    Nat.testBit_two_pow_self]
  simp

/-- The CONFIG value `set_adc_range` writes back, given the value read:
bit 4 set when `range ≠ 0`, bit 4 cleared otherwise. -/
def config_with_range (cfg : Nat) (range : Int) : Nat :=
  if range ≠ 0 then cfg ||| (1 <<< 4) else Nat.ldiff cfg (1 <<< 4)

/-- C6: `set_adc_range` reads the 2-byte CONFIG register (0x00) and writes it
back with bit 4 set and `_adc_range = 1` when `range ≠ 0`, else with bit 4
cleared and `_adc_range = 0`; every CONFIG bit other than bit 4 is written
back unchanged, and `_current_lsb` is not modified. -/
theorem c6_set_adc_range (dev : INA228) (bus : Bus) (range : Int) :
    (dev.set_adc_range bus range).1._current_lsb = dev._current_lsb ∧
    (dev.set_adc_range bus range).1._address = dev._address ∧
    (dev.set_adc_range bus range).1._adc_range =
      (if range ≠ 0 then 1 else 0) ∧
    (dev.set_adc_range bus range).2 =
      [I2CEvent.read dev._address 0x00 2 (bus dev._address 0x00 2),
        I2CEvent.write dev._address 0x00 (int_to_bytes2_big
          ((config_with_range (int_from_bytes_big (bus dev._address 0x00 2))
              range : Nat) : Int))] ∧
    (config_with_range (int_from_bytes_big (bus dev._address 0x00 2))
        range).testBit 4 = decide (range ≠ 0) ∧
    ∀ i, i ≠ 4 →
      (config_with_range (int_from_bytes_big (bus dev._address 0x00 2))
          range).testBit i
        = (int_from_bytes_big (bus dev._address 0x00 2)).testBit i := by
  have hbit4 : ∀ cfg : Nat,
      (config_with_range cfg range).testBit 4 = decide (range ≠ 0) := by
    intro cfg
    unfold config_with_range
    by_cases hr : range = 0
    · rw [if_neg (by simp [hr]), ldiff16_testBit_4]
      simp [hr]
    · rw [if_pos hr, or16_testBit_4]
      simp [hr]
  have hbitne : ∀ (cfg i : Nat), i ≠ 4 →
      (config_with_range cfg range).testBit i = cfg.testBit i := by
    intro cfg i hi
    unfold config_with_range
    by_cases hr : range = 0
    · rw [if_neg (by simp [hr]), ldiff16_testBit_ne cfg i hi]
    · rw [if_pos hr, or16_testBit_ne cfg i hi]
  refine ⟨?_, ?_, ?_, ?_, hbit4 _, fun i hi => hbitne _ i hi⟩ <;>
    by_cases hr : range = 0 <;>
      simp [INA228.set_adc_range, INA228._read_register,
        INA228._write_register16, config_with_range, _CONFIG, hr]

/-- Witness for C6 at `dev_range0`, `busAB`, `range = 1`, bit `i = 0`. -/
theorem c6_set_adc_range_witness :
    (0 : Nat) ≠ 4 ∧
      (config_with_range (int_from_bytes_big (busAB 0x40 0x00 2)) 1).testBit 0
        = (int_from_bytes_big (busAB 0x40 0x00 2)).testBit 0 :=
  ⟨by decide, (c6_set_adc_range dev_range0 busAB 1).2.2.2.2.2 0 (by decide)⟩

/-- C7: `reset_all` performs exactly one 2-byte CONFIG read followed by
exactly one CONFIG write of the value just read with bit 15 set; every other
bit of the written value equals the bit read, and the driver state
(`_current_lsb`, `_adc_range`) is unchanged. -/
theorem c7_reset_all (dev : INA228) (bus : Bus) :
    (dev.reset_all bus).1 = dev ∧
    (dev.reset_all bus).2 =
      [I2CEvent.read dev._address 0x00 2 (bus dev._address 0x00 2),
        I2CEvent.write dev._address 0x00 (int_to_bytes2_big
          ((int_from_bytes_big (bus dev._address 0x00 2) ||| (1 <<< 15)
            : Nat) : Int))] ∧
    (int_from_bytes_big (bus dev._address 0x00 2) ||| (1 <<< 15)).testBit 15
      = true ∧
    ∀ i, i ≠ 15 →
      (int_from_bytes_big (bus dev._address 0x00 2) ||| (1 <<< 15)).testBit i
        = (int_from_bytes_big (bus dev._address 0x00 2)).testBit i := by
  refine ⟨rfl, rfl, ?_, ?_⟩
  · rw [show (1 <<< 15 : Nat) = 2 ^ 15 by decide, Nat.testBit_lor,
      Nat.testBit_two_pow_self]
    simp
  · intro i hi
    rw [show (1 <<< 15 : Nat) = 2 ^ 15 by decide, Nat.testBit_lor,
      Nat.testBit_two_pow_of_ne (Ne.symm hi)]
    simp

/-- Witness for C7 at `dev_range0`, `busAB`, bit `i = 3`. -/
theorem c7_reset_all_witness :
    (3 : Nat) ≠ 15 ∧
      (int_from_bytes_big (busAB 0x40 0x00 2) ||| (1 <<< 15)).testBit 3
        = (int_from_bytes_big (busAB 0x40 0x00 2)).testBit 3 :=
  ⟨by decide, (c7_reset_all dev_range0 busAB).2.2.2 3 (by decide)⟩

/-- C8: `_write_register16` given an integer above 65535 silently issues the
write of the two big-endian bytes of the value's low 16 bits — the written
bytes decode to `v mod 2^16`, which differs from `v` — and has no error path,
mirroring the MicroPython `to_bytes` truncation documented by the spec. -/
theorem c8_write_truncation (dev : INA228) (register : Nat) (v : Int)
    (h : 65535 < v) :
    (dev._write_register16 register v).1 = dev ∧
    (dev._write_register16 register v).2 =
      [I2CEvent.write dev._address register (int_to_bytes2_big v)] ∧
    (int_from_bytes_big (int_to_bytes2_big v) : Int) = v % 65536 ∧
    (int_from_bytes_big (int_to_bytes2_big v) : Int) ≠ v := by
  have key : (int_from_bytes_big (int_to_bytes2_big v) : Int) = v % 65536 := by
    unfold int_to_bytes2_big int_from_bytes_big
    simp only [List.foldl, Nat.zero_mul, Nat.zero_add]
    rw [show (v % 65536).toNat / 256 * 256 + (v % 65536).toNat % 256
        = (v % 65536).toNat from by omega]
    exact Int.toNat_of_nonneg (Int.emod_nonneg v (by norm_num))
  refine ⟨rfl, rfl, key, ?_⟩
  rw [key]
  have h1 : v % 65536 < 65536 := Int.emod_lt_of_pos v (by norm_num)
  omega

/-- Witness for C8 at `v = 70000`: the bytes written decode to
`70000 mod 2^16 = 4464`. -/
theorem c8_write_truncation_witness :
    (65535 : Int) < 70000 ∧
      (int_from_bytes_big (int_to_bytes2_big 70000) : Int) = 70000 % 65536 :=
  ⟨by decide, (c8_write_truncation dev_range0 0x02 70000 (by decide)).2.2.1⟩

/-- C9, counterexample: reading the 40-bit ENERGY register (offset 0x09,
5 bytes wide) through `_read_register` issues exactly ONE transport read, of
all 5 bytes at offset 0x09 — not the two combined reads (4 bytes at the offset
and 1 byte at offset + 4) the claim describes. -/
theorem c9_two_reads_refuted :
    (dev_range0._read_register busAB 0x09 5).2.2 =
      [I2CEvent.read 0x40 0x09 5 [0xAB, 0xAB, 0xAB, 0xAB, 0xAB]] ∧
    (dev_range0._read_register busAB 0x09 5).2.2.length = 1 ∧
    (dev_range0._read_register busAB 0x09 5).1 = 0xABABABABAB :=
  ⟨rfl, rfl, by decide⟩

/-- Big-endian accumulation over any byte list, from any accumulator. -/
lemma foldl_bytes_lt : ∀ (bs : List Nat), (∀ b ∈ bs, b < 256) →
    ∀ acc, List.foldl (fun a c => a * 256 + c) acc bs
      < (acc + 1) * 256 ^ bs.length := by
  intro bs
  induction bs with
  | nil => intro _ acc; simp
  | cons b bs ih =>
    intro h acc
    have hb : b < 256 := h b (List.mem_cons_self b bs)
    have hrest : ∀ x ∈ bs, x < 256 := fun x hx => h x (List.mem_cons_of_mem b hx)
    have hih := ih hrest (acc * 256 + b)
    have hpow : (0 : Nat) < 256 ^ bs.length := Nat.pos_pow_of_pos _ (by norm_num)
    calc List.foldl (fun a c => a * 256 + c) acc (b :: bs)
        = List.foldl (fun a c => a * 256 + c) (acc * 256 + b) bs := by
          simp [List.foldl]
      _ < (acc * 256 + b + 1) * 256 ^ bs.length := hih
      _ ≤ ((acc + 1) * 256) * 256 ^ bs.length := by nlinarith
      _ = (acc + 1) * 256 ^ (b :: bs).length := by
          rw [List.length_cons, Nat.pow_succ]; ring

/-- A big-endian decoded byte list stays below `256 ^ length`. -/
lemma int_from_bytes_big_lt (bs : List Nat) (h : ∀ b ∈ bs, b < 256) :
    int_from_bytes_big bs < 256 ^ bs.length := by
  have := foldl_bytes_lt bs h 0
  simpa [int_from_bytes_big] using this

/-- C9, amended: reading a 40-bit accumulator register (ENERGY 0x09 or CHARGE
0x0A) issues a single transport read of 5 bytes at the register offset and
returns the big-endian unsigned integer formed from the five returned bytes;
when the transport returns 5 genuine bytes that integer is below `2^40`. -/
theorem c9_read40_single (dev : INA228) (bus : Bus) (register : Nat)
    (hlen : (bus dev._address register 5).length = 5)
    (hbytes : ∀ b ∈ bus dev._address register 5, b < 256) :
    dev._read_register bus register 5 =
      (int_from_bytes_big (bus dev._address register 5), dev,
        [I2CEvent.read dev._address register 5 (bus dev._address register 5)]) ∧
    int_from_bytes_big (bus dev._address register 5) < 2 ^ 40 := by
  refine ⟨rfl, ?_⟩
  have hb := int_from_bytes_big_lt (bus dev._address register 5) hbytes
  rw [hlen] at hb
  calc int_from_bytes_big (bus dev._address register 5)
      < 256 ^ 5 := hb
    _ = 2 ^ 40 := by norm_num

/-- Witness for the amended C9 at `dev_range0`, `busAB`, register 0x09. -/
theorem c9_read40_single_witness :
    ((busAB 0x40 0x09 5).length = 5 ∧ ∀ b ∈ busAB 0x40 0x09 5, b < 256) ∧
      int_from_bytes_big (busAB 0x40 0x09 5) < 2 ^ 40 :=
  ⟨⟨by decide, by decide⟩,
    (c9_read40_single dev_range0 busAB 0x09 (by decide) (by decide)).2⟩

/-- C10: every read accessor returns the driver state unchanged (so
`_current_lsb` and `_adc_range` keep their values) and its transaction trace
contains no transport write. -/
theorem c10_accessors_frame (dev : INA228) (bus : Bus) :
    ((dev.get_current bus).2.1 = dev ∧
      has_no_write (dev.get_current bus).2.2 = true) ∧
    ((dev.get_voltage bus).2.1 = dev ∧
      has_no_write (dev.get_voltage bus).2.2 = true) ∧
    ((dev.get_vshunt bus).2.1 = dev ∧
      has_no_write (dev.get_vshunt bus).2.2 = true) ∧
    ((dev.get_die_temp bus).2.1 = dev ∧
      has_no_write (dev.get_die_temp bus).2.2 = true) ∧
    ((dev.get_diagnostic_flags bus).2.1 = dev ∧
      has_no_write (dev.get_diagnostic_flags bus).2.2 = true) ∧
    ((dev.get_manufacturer_id bus).2.1 = dev ∧
      has_no_write (dev.get_manufacturer_id bus).2.2 = true) ∧
    ((dev.get_device_id bus).2.1 = dev ∧
      has_no_write (dev.get_device_id bus).2.2 = true) :=
  ⟨⟨rfl, rfl⟩, ⟨rfl, rfl⟩, ⟨rfl, rfl⟩, ⟨rfl, rfl⟩, ⟨rfl, rfl⟩, ⟨rfl, rfl⟩,
    ⟨rfl, rfl⟩⟩

end INA228Model
